import Mathlib

/-!
# Verification of the loopy linearization checker core

Shallow embedding of `loopy/schedule/checker/schedule.py`
(`StatementInstanceSet`, `PairwiseScheduleBuilder`) and of
`loopy/schedule/tree.py` (`InstructionBlockHomogenizer`), together with
spec-modelled definitions for the two pieces of the checker that live in
files absent from the source tree (`lexicographic_order_map.create_lex_order_map`
and the statement-instance-ordering composition).

Conventions of the embedding:
* Python `int` becomes `Int`; Python lists become `List`.
* A lex-point entry is either an integer block counter or a loop-iname
  symbol (`LexEntry`).
* Python operations that can raise (`list.pop()` / `l[-1]` on an empty
  list, `str + int`) are modelled by `Option`: `none` stands for an
  uncaught exception aborting the construction.
-/

/-- One entry of a lexicographic point: an integer block counter or a
loop-variable (iname) symbol, mirroring the `int`-or-`str` entries of
`next_insn_lex_tuple` in `PairwiseScheduleBuilder.__init__`. -/
inductive LexEntry where
  | int (n : Int)
  | sym (iname : String)
deriving DecidableEq, Repr

/-- `StatementInstanceSet` from `schedule.py`: an instruction id plus the
list of lex-point entries describing its position. -/
structure StatementInstanceSet where
  insn_id : String
  lex_points : List LexEntry
deriving DecidableEq, Repr

/-- The four linearization item kinds consumed by the builder
(`EnterLoop`, `LeaveLoop`, `RunInstruction`, `Barrier`), as described by
`loopy.schedule` and §3 of the spec. -/
inductive LinItem where
  | enterLoop (iname : String)
  | leaveLoop (iname : String)
  | runInsn (insn_id : String)
  | barrier (comment sync_kind mem_kind : String)
      (originating_insn_id : Option String)
deriving DecidableEq, Repr

/-- Modelled from the spec: `get_insn_id_from_linearization_item` lives in
`loopy/schedule/checker/utils.py`, which is absent from the source tree.
Per §3/§4.2 of the spec, a `RunInstruction` carries its statement id and a
`Barrier` carries an optional originating statement id. -/
def get_insn_id_from_linearization_item : LinItem → Option String
  | .runInsn sid => some sid
  | .barrier _ _ _ oid => oid
  | _ => none

/-- The mutable state of the single-pass walk in
`PairwiseScheduleBuilder.__init__`: the current lex tuple, the
per-tier statement-seen flags, and the two captured statement
instance sets (initially `None`). -/
structure WalkState where
  next_insn_lex_tuple : List LexEntry
  stmt_added_since_prev_block_at_tier : List Bool
  stmt_instance_set_before : Option StatementInstanceSet
  stmt_instance_set_after : Option StatementInstanceSet
deriving DecidableEq, Repr

/-- Initial walk state: the 1-d point `[0]` and a single `False` flag. -/
def initWalkState : WalkState :=
  ⟨[.int 0], [false], none, none⟩

/-- `l[-1] = l[-1] + 1` on a lex tuple.  `none` models the `IndexError`
on an empty list and the `TypeError` when the last entry is a string. -/
def bumpLast : List LexEntry → Option (List LexEntry)
  | [] => none
  | [.int n] => some [.int (n + 1)]
  | [.sym _] => none
  | x :: y :: rest => (bumpLast (y :: rest)).map (x :: ·)

/-- `l.pop()` keeping only the remaining list; `none` models the
`IndexError` on an empty list. -/
def popLast : List α → Option (List α)
  | [] => none
  | l@(_ :: _) => some l.dropLast

/-- Overwrite the last element of a list (used only after the last
element has been read successfully). -/
def setLast (b : α) (l : List α) : List α := l.dropLast ++ [b]

/-- The Python truthiness test `self.stmt_instance_set_before and
self.stmt_instance_set_after` that drives the early `break`. -/
def isDone (s : WalkState) : Bool :=
  s.stmt_instance_set_before.isSome && s.stmt_instance_set_after.isSome

/-- One iteration of the `for linearization_item in
linearization_items_ordered` loop in `PairwiseScheduleBuilder.__init__`,
for a given item.  Mirrors the source branch by branch. -/
def stepItem (loops_to_ignore : List String) (before_insn_id after_insn_id : String)
    (item : LinItem) (s : WalkState) : Option WalkState :=
  match item with
  | .enterLoop iname =>
      if iname ∈ loops_to_ignore then some s
      else
        match s.stmt_added_since_prev_block_at_tier.getLast? with
        | none => none
        | some f =>
            if f then
              match bumpLast s.next_insn_lex_tuple with
              | none => none
              | some t =>
                  some { s with
                    next_insn_lex_tuple := t ++ [.sym iname, .int 0],
                    stmt_added_since_prev_block_at_tier :=
                      setLast false s.stmt_added_since_prev_block_at_tier
                        ++ [false] }
            else
              some { s with
                next_insn_lex_tuple :=
                  s.next_insn_lex_tuple ++ [.sym iname, .int 0],
                stmt_added_since_prev_block_at_tier :=
                  s.stmt_added_since_prev_block_at_tier ++ [false] }
  | .leaveLoop iname =>
      if iname ∈ loops_to_ignore then some s
      else
        match popLast s.next_insn_lex_tuple with
        | none => none
        | some t1 =>
            match popLast t1 with
            | none => none
            | some t2 =>
                match popLast s.stmt_added_since_prev_block_at_tier with
                | none => none
                | some f1 =>
                    match f1.getLast? with
                    | none => none
                    | some b =>
                        if b then
                          match bumpLast t2 with
                          | none => none
                          | some t3 =>
                              some { s with
                                next_insn_lex_tuple := t3,
                                stmt_added_since_prev_block_at_tier :=
                                  setLast false f1 }
                        else
                          some { s with
                            next_insn_lex_tuple := t2,
                            stmt_added_since_prev_block_at_tier := f1 }
  | _ =>
      match get_insn_id_from_linearization_item item with
      | none => some s
      | some lp_insn_id =>
          if lp_insn_id = before_insn_id ∨ lp_insn_id = after_insn_id then
            match bumpLast s.next_insn_lex_tuple with
            | none => none
            | some t =>
                some ⟨t,
                  List.replicate s.stmt_added_since_prev_block_at_tier.length
                    true,
                  if lp_insn_id = before_insn_id then
                    some ⟨lp_insn_id, s.next_insn_lex_tuple⟩
                  else s.stmt_instance_set_before,
                  if lp_insn_id = after_insn_id then
                    some ⟨lp_insn_id, s.next_insn_lex_tuple⟩
                  else s.stmt_instance_set_after⟩
          else
            some ⟨s.next_insn_lex_tuple,
              s.stmt_added_since_prev_block_at_tier,
              if lp_insn_id = before_insn_id then
                some ⟨lp_insn_id, s.next_insn_lex_tuple⟩
              else s.stmt_instance_set_before,
              if lp_insn_id = after_insn_id then
                some ⟨lp_insn_id, s.next_insn_lex_tuple⟩
              else s.stmt_instance_set_after⟩

/-- The walk over the remaining linearization items, including the early
`break` once both statements have been captured (checked after each
item, like the source). -/
def walkItems (loops_to_ignore : List String) (before_insn_id after_insn_id : String) :
    List LinItem → WalkState → Option WalkState
  | [], s => some s
  | item :: rest, s =>
      match stepItem loops_to_ignore before_insn_id after_insn_id item s with
      | none => none
      | some s' =>
          if isDone s' then some s' else
            walkItems loops_to_ignore before_insn_id after_insn_id rest s'

/-- `PairwiseScheduleBuilder.max_lex_dims` on the two captured sets. -/
def max_lex_dims (b a : StatementInstanceSet) : Nat :=
  max b.lex_points.length a.lex_points.length

/-- `_pad_lex_tuple_with_zeros` from `PairwiseScheduleBuilder.__init__`:
right-pad the lex points with integer zeros up to `length`. -/
def pad_lex_tuple_with_zeros (stmt_inst : StatementInstanceSet) (length : Nat) :
    StatementInstanceSet :=
  ⟨stmt_inst.insn_id,
    stmt_inst.lex_points ++
      List.replicate (length - stmt_inst.lex_points.length) (.int 0)⟩

/-- The whole of `PairwiseScheduleBuilder.__init__`: walk the
linearization, then zero-pad both captured sets to the common length.
`none` models the fatal abort (uncaught exception) when either target
statement was never captured or the walk itself raised. -/
def buildPair (linearization_items_ordered : List LinItem)
    (before_insn_id after_insn_id : String) (loops_to_ignore : List String) :
    Option (StatementInstanceSet × StatementInstanceSet) :=
  match walkItems loops_to_ignore before_insn_id after_insn_id
          linearization_items_ordered initWalkState with
  | none => none
  | some s =>
      match s.stmt_instance_set_before, s.stmt_instance_set_after with
      | some b, some a =>
          some (pad_lex_tuple_with_zeros b (max_lex_dims b a),
                pad_lex_tuple_with_zeros a (max_lex_dims b a))
      | _, _ => none

/-- The integer statement ids computed in
`PairwiseScheduleBuilder.build_maps`: `int_sid_before = 0` and
`int_sid_after = 0` if the two captured insn ids coincide, else `1`. -/
def int_sids (before after : StatementInstanceSet) : Int × Int :=
  (0, if before.insn_id = after.insn_id then 0 else 1)

/-- The Scenario A linearization from §8 of the spec (and
`test_statement_instance_ordering`): loops `i`,`k` and `i`,`j` nested
under `i`, plus an unrelated loop `t`; statements `sa` in `(i,k)`,
`sb`,`sc` in `(i,j)`, `sd` in `t`. -/
def itemsA : List LinItem :=
  [.enterLoop "i", .enterLoop "k", .runInsn "sa", .leaveLoop "k",
   .enterLoop "j", .runInsn "sb", .runInsn "sc", .leaveLoop "j",
   .leaveLoop "i", .enterLoop "t", .runInsn "sd", .leaveLoop "t"]

/-- The before-set the builder captures for `sb` in Scenario A. -/
def sbA : StatementInstanceSet :=
  ⟨"sb", [.int 0, .sym "i", .int 0, .sym "j", .int 0]⟩

/-- The after-set the builder captures for `sc` in Scenario A. -/
def scA : StatementInstanceSet :=
  ⟨"sc", [.int 0, .sym "i", .int 0, .sym "j", .int 1]⟩

/-- The before-set the builder captures for `sc` in the `(sc, sd)`
query on Scenario A. -/
def scB : StatementInstanceSet :=
  ⟨"sc", [.int 0, .sym "i", .int 0, .sym "j", .int 0]⟩

/-- The zero-padded after-set for `sd` in the `(sc, sd)` query on
Scenario A. -/
def sdB : StatementInstanceSet :=
  ⟨"sd", [.int 1, .sym "t", .int 0, .int 0, .int 0]⟩

/-- The Scenario A prefix ending at the item that completes the second
capture for the pair `(sb, sc)`. -/
def itemsAP : List LinItem := itemsA.take 7

/-- The rest of Scenario A after `itemsAP`. -/
def itemsAS : List LinItem := itemsA.drop 7

/-- The walk state reached after `itemsAP` for the pair `(sb, sc)`. -/
def walkStateA7 : WalkState :=
  ⟨[.int 0, .sym "i", .int 0, .sym "j", .int 2], [true, true, true],
    some sbA, some scA⟩

/-- Modelled from the spec: one disjunct of the strict lexicographic
order relation of `create_lex_order_map`
(`loopy/schedule/checker/lexicographic_order_map.py`, absent from the
source tree): the two points agree exactly on coordinates `[0, k)` and
the first is strictly smaller at coordinate `k` (§4.3 of the spec). -/
def lexDisjAt (k : Nat) (A B : List Int) : Prop :=
  A.take k = B.take k ∧ ∃ x y, A.get? k = some x ∧ B.get? k = some y ∧ x < y

/-- Modelled from the spec: the `n` disjuncts whose union is the strict
lexicographic order relation for arity `n` (§4.3: "Constructed as the
union over k of (prefix-equality AND strict-less-at-k)"). -/
def create_lex_order_map_disjuncts (n_dims : Nat) :
    List (List Int → List Int → Prop) :=
  (List.range n_dims).map lexDisjAt

/-- Modelled from the spec: `create_lex_order_map` for arity `n_dims`,
as a relation between lexicographic points: the union of the `n_dims`
disjuncts. -/
def create_lex_order_map (n_dims : Nat) (A B : List Int) : Prop :=
  ∃ R ∈ create_lex_order_map_disjuncts n_dims, R A B

/-- Structural strict lexicographic order on integer lists, used as a
proof-friendly reformulation of `create_lex_order_map` on equal-length
points. -/
def lexStrictLt : List Int → List Int → Prop
  | a :: as, b :: bs => a < b ∨ (a = b ∧ lexStrictLt as bs)
  | _, _ => False

/-- Evaluate one lex-point entry at an assignment of loop inames to
integers (a statement instance). -/
def evalLexEntry (env : String → Int) : LexEntry → Int
  | .int n => n
  | .sym iname => env iname

/-- The lexicographic point reached by the statement instance `env`
under a captured `StatementInstanceSet` — the relation
`{(statement instance) -> (lex point)}` of `build_maps`, read as a
function of the enclosing loop indices. -/
def instToLexPoint (stmt_inst : StatementInstanceSet) (env : String → Int) :
    List Int :=
  stmt_inst.lex_points.map (evalLexEntry env)

/-- Modelled from the spec: the statement-instance-ordering composition
of §4.4 (`SIO = before_relation⁻¹ ∘ LexOrderRelation ∘ after_relation`,
built in `loopy/schedule/checker/__init__.py`, absent from the source
tree): a before-instance and an after-instance are related iff both lie
in their domains and the lex point reached by the before instance is
strictly lexicographically before the one reached by the after
instance, using the lex order relation for the pairwise-schedule space
(arity `max_lex_dims`). -/
def sioPairRelation (sb sa : StatementInstanceSet)
    (domBefore domAfter : (String → Int) → Prop)
    (envBefore envAfter : String → Int) : Prop :=
  domBefore envBefore ∧ domAfter envAfter ∧
  create_lex_order_map (max_lex_dims sb sa)
    (instToLexPoint sb envBefore) (instToLexPoint sa envAfter)

/-- A statement instance of the `i`,`j` nest: the assignment sending
`i` and `j` to the given values. -/
def envIJ (iv jv : Int) : String → Int :=
  fun x => if x = "i" then iv else if x = "j" then jv else 0

/-- The domain `0 <= i < pi and 0 <= j < pj` of the statements `sb`,
`sc` in Scenario A. -/
def domIJ (pi pj : Int) : (String → Int) → Prop :=
  fun env => 0 ≤ env "i" ∧ env "i" < pi ∧ 0 ≤ env "j" ∧ env "j" < pj

/-- The `sym`/`int` tail of a well-formed lex tuple: one loop-variable
symbol followed by one block counter per open loop, innermost last. -/
def tailEntries : List (String × Int) → List LexEntry
  | [] => []
  | (s, c) :: rest => .sym s :: .int c :: tailEntries rest

/-- A well-formed lex tuple: an outermost block counter followed by one
`(loop symbol, block counter)` pair per open loop. -/
def interleaveTuple (c0 : Int) (rest : List (String × Int)) : List LexEntry :=
  .int c0 :: tailEntries rest

/-- The lex tuple alternates: entries at even indices are nonnegative
integer block counters and entries at odd indices are exactly the given
loop symbols, outermost first.  (Such a tuple has odd length
`2 * stack.length + 1`.) -/
def ShapedTuple (stack : List String) (t : List LexEntry) : Prop :=
  ∃ c0 rest, t = interleaveTuple c0 rest ∧ rest.map Prod.fst = stack ∧
    0 ≤ c0 ∧ ∀ p ∈ rest, 0 ≤ p.2

/-- How one linearization item changes the stack of currently open
non-ignored loops; `none` when a non-ignored `LeaveLoop` does not close
the most recently opened non-ignored loop (or pops the initial frame). -/
def openStackStep (loops_to_ignore : List String) (stack : List String) :
    LinItem → Option (List String)
  | .enterLoop iname =>
      if iname ∈ loops_to_ignore then some stack
      else some (stack ++ [iname])
  | .leaveLoop iname =>
      if iname ∈ loops_to_ignore then some stack
      else
        match stack.getLast? with
        | none => none
        | some j => if j = iname then some stack.dropLast else none
  | _ => some stack

/-- The stack of open non-ignored loops after a list of items. -/
def openStack (loops_to_ignore : List String) :
    List LinItem → List String → Option (List String)
  | [], stack => some stack
  | item :: rest, stack =>
      match openStackStep loops_to_ignore stack item with
      | none => none
      | some stack' => openStack loops_to_ignore rest stack'

/-- Well-nestedness of a linearization with respect to an ignore set:
every non-ignored `LeaveLoop` closes the most recently opened
not-yet-closed non-ignored `EnterLoop`, and the initial frame is never
popped. -/
def WellNested (items : List LinItem) (loops_to_ignore : List String) : Prop :=
  (openStack loops_to_ignore items []).isSome = true

/-- The Scenario A prefix before the item that captures `sb`. -/
def itemsA5 : List LinItem := itemsA.take 5

/-- The Scenario A items after the one that captures `sb`. -/
def itemsAtail : List LinItem := itemsA.drop 6

/-- The walk state reached after `itemsA5` for the pair `(sb, sc)`. -/
def walkStateA5 : WalkState :=
  ⟨[.int 0, .sym "i", .int 0, .sym "j", .int 0], [false, false, false],
    none, none⟩

/-- The walk state after additionally processing `Run sb`. -/
def walkStateA6 : WalkState :=
  ⟨[.int 0, .sym "i", .int 0, .sym "j", .int 1], [true, true, true],
    some sbA, none⟩

/-- `RunInstruction` schedule-tree node from `loopy/schedule/tree.py`. -/
structure RunInstruction where
  insn_id : String
deriving DecidableEq, Repr

/-- The per-instruction kernel data read by
`InstructionBlockHomogenizer` through `kernel.id_to_insn`: the
`within_inames` and `predicates` frozensets of each instruction. -/
structure KernelInsnInfo where
  within_inames : String → Finset String
  predicates : String → Finset String

/-- `InstructionBlockHomogenizer._are_insns_similar`: two instructions
are similar iff they have equal `within_inames` and equal
`predicates`. -/
def are_insns_similar (k : KernelInsnInfo) (insn1_id insn2_id : String) : Bool :=
  decide (k.within_inames insn1_id = k.within_inames insn2_id) &&
  decide (k.predicates insn1_id = k.predicates insn2_id)

/-- The `for run_insn in expr.children` loop of
`InstructionBlockHomogenizer.map_instruction_block`, with the loop state
(`insn_blocks`, `similar_run_insns`) made explicit; the final
`insn_blocks.append(InstructionBlock(similar_run_insns))` is the base
case. -/
def homogenizeBlocks (k : KernelInsnInfo) :
    List RunInstruction → List (List RunInstruction) → List RunInstruction →
    List (List RunInstruction)
  | [], insn_blocks, similar_run_insns => insn_blocks ++ [similar_run_insns]
  | run_insn :: rest, insn_blocks, similar_run_insns =>
      match similar_run_insns.getLast? with
      | none => homogenizeBlocks k rest insn_blocks [run_insn]
      | some lastInsn =>
          if are_insns_similar k lastInsn.insn_id run_insn.insn_id then
            homogenizeBlocks k rest insn_blocks
              (similar_run_insns ++ [run_insn])
          else
            homogenizeBlocks k rest (insn_blocks ++ [similar_run_insns])
              [run_insn]

/-- `InstructionBlockHomogenizer.map_instruction_block`, returning the
children lists of the produced instruction blocks, in order. -/
def map_instruction_block (k : KernelInsnInfo)
    (children : List RunInstruction) : List (List RunInstruction) :=
  homogenizeBlocks k children [] []

/-- C7: a `Barrier` carrying no originating statement id is skipped by
the builder's walk: processing it returns the state unchanged (so it is
never captured as the before or after endpoint, and the lex tuple, block
counters and statement-seen flags are untouched). -/
theorem barrier_without_id_is_skipped
    (loops_to_ignore : List String) (before_insn_id after_insn_id : String)
    (comment sync_kind mem_kind : String) (s : WalkState) :
    stepItem loops_to_ignore before_insn_id after_insn_id
      (.barrier comment sync_kind mem_kind none) s = some s := rfl

/-- Anatomy of one walk step, as far as the two capture slots are
concerned: each slot is either left unchanged or overwritten with a
snapshot of the current lex tuple under the matching target id, and a
slot is certainly unchanged when the item's usable statement id is not
the corresponding target id. -/
theorem stepItem_capture_spec {loops_to_ignore : List String}
    {before_insn_id after_insn_id : String} {item : LinItem} {s s' : WalkState}
    (h : stepItem loops_to_ignore before_insn_id after_insn_id item s = some s') :
    (s'.stmt_instance_set_before = s.stmt_instance_set_before ∨
      s'.stmt_instance_set_before = some ⟨before_insn_id, s.next_insn_lex_tuple⟩) ∧
    (s'.stmt_instance_set_after = s.stmt_instance_set_after ∨
      s'.stmt_instance_set_after = some ⟨after_insn_id, s.next_insn_lex_tuple⟩) ∧
    (get_insn_id_from_linearization_item item ≠ some before_insn_id →
      s'.stmt_instance_set_before = s.stmt_instance_set_before) ∧
    (get_insn_id_from_linearization_item item ≠ some after_insn_id →
      s'.stmt_instance_set_after = s.stmt_instance_set_after) := by
  cases item <;>
    simp only [stepItem, get_insn_id_from_linearization_item] at h ⊢ <;>
    (repeat' split at h) <;>
    simp_all <;>
    (try (cases h; simp_all))

/-- Preservation of a predicate along the walk, given that every single
step over an item of the list preserves it. -/
theorem walkItems_preserves {loops_to_ignore : List String}
    {before_insn_id after_insn_id : String} (P : WalkState → Prop) :
    ∀ (items : List LinItem) (s t : WalkState),
      (∀ item ∈ items, ∀ u u',
        stepItem loops_to_ignore before_insn_id after_insn_id item u = some u' →
        P u → P u') →
      walkItems loops_to_ignore before_insn_id after_insn_id items s = some t →
      P s → P t := by
  intro items
  induction items with
  | nil =>
      intro s t _ hw hP
      simp only [walkItems, Option.some.injEq] at hw
      rwa [← hw]
  | cons item rest ih =>
      intro s t hstep hw hP
      cases hs : stepItem loops_to_ignore before_insn_id after_insn_id item s with
      | none => simp [walkItems, hs] at hw
      | some s' =>
          have hP' : P s' := hstep item (by simp) s s' hs hP
          cases hd : isDone s' with
          | true =>
              simp [walkItems, hs, hd] at hw
              rwa [← hw]
          | false =>
              simp only [walkItems, hs, hd, Bool.false_eq_true, if_false] at hw
              exact ih s' t (fun i hi => hstep i (by simp [hi])) hw hP'

/-- Elimination form of `buildPair`: a successful construction comes from
a successful walk that captured both statements, and the results are the
zero-padded captured sets. -/
theorem buildPair_elim {items : List LinItem} {before_insn_id after_insn_id : String}
    {loops_to_ignore : List String} {sb sa : StatementInstanceSet}
    (h : buildPair items before_insn_id after_insn_id loops_to_ignore = some (sb, sa)) :
    ∃ t b0 a0,
      walkItems loops_to_ignore before_insn_id after_insn_id items initWalkState
        = some t ∧
      t.stmt_instance_set_before = some b0 ∧
      t.stmt_instance_set_after = some a0 ∧
      sb = pad_lex_tuple_with_zeros b0 (max_lex_dims b0 a0) ∧
      sa = pad_lex_tuple_with_zeros a0 (max_lex_dims b0 a0) := by
  unfold buildPair at h
  split at h
  · exact absurd h (by simp)
  · rename_i t hw
    split at h
    · rename_i b0 a0 hb ha
      cases h
      exact ⟨t, b0, a0, hw, hb, ha, rfl, rfl⟩
    · exact absurd h (by simp)

/-- Along a walk, a captured before-set always bears the before id (and
symmetrically for the after side). -/
theorem walkItems_insn_ids {loops_to_ignore : List String}
    {before_insn_id after_insn_id : String} {items : List LinItem}
    {t : WalkState}
    (hw : walkItems loops_to_ignore before_insn_id after_insn_id items
            initWalkState = some t) :
    (∀ x, t.stmt_instance_set_before = some x → x.insn_id = before_insn_id) ∧
    (∀ x, t.stmt_instance_set_after = some x → x.insn_id = after_insn_id) := by
  have := @walkItems_preserves loops_to_ignore before_insn_id after_insn_id
    (fun u =>
      (∀ x, u.stmt_instance_set_before = some x → x.insn_id = before_insn_id) ∧
      (∀ x, u.stmt_instance_set_after = some x → x.insn_id = after_insn_id))
    items initWalkState t ?_ hw ?_
  · exact this
  · intro item hitem u u' hstep hu
    obtain ⟨hb, ha, -, -⟩ := stepItem_capture_spec hstep
    constructor
    · intro x hx
      rcases hb with hb | hb
      · exact hu.1 x (hb ▸ hx)
      · rw [hb] at hx; cases hx; rfl
    · intro x hx
      rcases ha with ha | ha
      · exact hu.2 x (ha ▸ hx)
      · rw [ha] at hx; cases hx; rfl
  · show (∀ x, initWalkState.stmt_instance_set_before = some x →
        x.insn_id = before_insn_id) ∧
      (∀ x, initWalkState.stmt_instance_set_after = some x →
        x.insn_id = after_insn_id)
    exact ⟨(fun x hx => by cases hx), (fun x hx => by cases hx)⟩

/-- C3: the synthetic which-statement coordinate computed by
`build_maps` is `0` for the before statement and `1` for the after
statement, except that both sides use `0` when the two target ids
coincide; moreover the captured sets carry exactly the requested ids. -/
theorem which_statement_coordinates (items : List LinItem)
    (before_insn_id after_insn_id : String) (loops_to_ignore : List String)
    (sb sa : StatementInstanceSet)
    (h : buildPair items before_insn_id after_insn_id loops_to_ignore
          = some (sb, sa)) :
    sb.insn_id = before_insn_id ∧ sa.insn_id = after_insn_id ∧
    (int_sids sb sa).1 = 0 ∧
    (before_insn_id = after_insn_id → (int_sids sb sa).2 = 0) ∧
    (before_insn_id ≠ after_insn_id → (int_sids sb sa).2 = 1) := by
  obtain ⟨t, b0, a0, hw, hb, ha, hsb, hsa⟩ := buildPair_elim h
  obtain ⟨hB, hA⟩ := walkItems_insn_ids hw
  have hidb : sb.insn_id = before_insn_id := by
    rw [hsb]; exact hB b0 hb
  have hida : sa.insn_id = after_insn_id := by
    rw [hsa]; exact hA a0 ha
  refine ⟨hidb, hida, rfl, ?_, ?_⟩
  · intro he; simp [int_sids, hidb, hida, he]
  · intro hne; simp [int_sids, hidb, hida, hne]

/-- Witness for C3 at the Scenario A pair `(sb, sc)`. -/
theorem which_statement_coordinates_witness :
    buildPair itemsA "sb" "sc" [] = some (sbA, scA) ∧
    (sbA.insn_id = "sb" ∧ scA.insn_id = "sc" ∧
     (int_sids sbA scA).1 = 0 ∧
     (("sb" : String) = "sc" → (int_sids sbA scA).2 = 0) ∧
     (("sb" : String) ≠ "sc" → (int_sids sbA scA).2 = 1)) :=
  ⟨by decide, which_statement_coordinates itemsA "sb" "sc" [] sbA scA (by decide)⟩

/-- C9: the construction is deterministic — two builds with equal inputs
agree on the captured ids and lex points on both sides. -/
theorem builder_deterministic (items : List LinItem)
    (before_insn_id after_insn_id : String) (loops_to_ignore : List String)
    (sb1 sa1 sb2 sa2 : StatementInstanceSet)
    (h1 : buildPair items before_insn_id after_insn_id loops_to_ignore
           = some (sb1, sa1))
    (h2 : buildPair items before_insn_id after_insn_id loops_to_ignore
           = some (sb2, sa2)) :
    sb1.insn_id = sb2.insn_id ∧ sb1.lex_points = sb2.lex_points ∧
    sa1.insn_id = sa2.insn_id ∧ sa1.lex_points = sa2.lex_points := by
  rw [h1] at h2
  simp only [Option.some.injEq, Prod.mk.injEq] at h2
  obtain ⟨hb, ha⟩ := h2
  exact ⟨by rw [hb], by rw [hb], by rw [ha], by rw [ha]⟩

/-- Witness for C9 at the Scenario A pair `(sb, sc)`. -/
theorem builder_deterministic_witness :
    buildPair itemsA "sb" "sc" [] = some (sbA, scA) ∧
    (sbA.insn_id = sbA.insn_id ∧ sbA.lex_points = sbA.lex_points ∧
     scA.insn_id = scA.insn_id ∧ scA.lex_points = scA.lex_points) :=
  ⟨by decide,
   builder_deterministic itemsA "sb" "sc" [] sbA scA sbA scA
     (by decide) (by decide)⟩

/-- C2: after construction both sides have lex-point lists of equal
length; each equals the originally captured list extended on the right
by integer zeros up to the common (maximal) length. -/
theorem zero_padding_law (items : List LinItem)
    (before_insn_id after_insn_id : String) (loops_to_ignore : List String)
    (sb sa : StatementInstanceSet)
    (h : buildPair items before_insn_id after_insn_id loops_to_ignore
          = some (sb, sa)) :
    sb.lex_points.length = sa.lex_points.length ∧
    ∃ t b0 a0,
      walkItems loops_to_ignore before_insn_id after_insn_id items
        initWalkState = some t ∧
      t.stmt_instance_set_before = some b0 ∧
      t.stmt_instance_set_after = some a0 ∧
      sb.insn_id = b0.insn_id ∧ sa.insn_id = a0.insn_id ∧
      sb.lex_points = b0.lex_points ++
        List.replicate (max_lex_dims b0 a0 - b0.lex_points.length)
          (.int 0) ∧
      sa.lex_points = a0.lex_points ++
        List.replicate (max_lex_dims b0 a0 - a0.lex_points.length)
          (.int 0) := by
  obtain ⟨t, b0, a0, hw, hb, ha, hsb, hsa⟩ := buildPair_elim h
  constructor
  · rw [hsb, hsa]
    simp only [pad_lex_tuple_with_zeros, max_lex_dims, List.length_append,
      List.length_replicate]
    omega
  · exact ⟨t, b0, a0, hw, hb, ha, (by rw [hsb]; rfl), (by rw [hsa]; rfl),
      (by rw [hsb]; rfl), (by rw [hsa]; rfl)⟩

/-- Witness for C2 at the Scenario A pair `(sc, sd)`, where the after
side really is padded (from 3 to 5 dimensions). -/
theorem zero_padding_law_witness :
    buildPair itemsA "sc" "sd" [] = some (scB, sdB) ∧
    (scB.lex_points.length = sdB.lex_points.length ∧
     ∃ t b0 a0,
       walkItems [] "sc" "sd" itemsA initWalkState = some t ∧
       t.stmt_instance_set_before = some b0 ∧
       t.stmt_instance_set_after = some a0 ∧
       scB.insn_id = b0.insn_id ∧ sdB.insn_id = a0.insn_id ∧
       scB.lex_points = b0.lex_points ++
         List.replicate (max_lex_dims b0 a0 - b0.lex_points.length)
           (.int 0) ∧
       sdB.lex_points = a0.lex_points ++
         List.replicate (max_lex_dims b0 a0 - a0.lex_points.length)
           (.int 0)) :=
  ⟨by decide, zero_padding_law itemsA "sc" "sd" [] scB sdB (by decide)⟩

/-- C5: if either target id never appears as the usable statement id of
an item, the construction fails fatally (modelled as `none`) rather than
returning a partial result. -/
theorem missing_statement_fatal (items : List LinItem)
    (before_insn_id after_insn_id : String) (loops_to_ignore : List String)
    (h : (∀ item ∈ items,
            get_insn_id_from_linearization_item item ≠ some before_insn_id) ∨
         (∀ item ∈ items,
            get_insn_id_from_linearization_item item ≠ some after_insn_id)) :
    buildPair items before_insn_id after_insn_id loops_to_ignore = none := by
  unfold buildPair
  cases hw : walkItems loops_to_ignore before_insn_id after_insn_id items
      initWalkState with
  | none => rfl
  | some t =>
      rcases h with h | h
      · have hnone : t.stmt_instance_set_before = none :=
          walkItems_preserves
            (fun u => u.stmt_instance_set_before = none) items initWalkState t
            (fun item hi u u' hs hu => by
              show u'.stmt_instance_set_before = none
              have hu' : u.stmt_instance_set_before = none := hu
              rw [(stepItem_capture_spec hs).2.2.1 (h item hi)]
              exact hu')
            hw rfl
        simp [hnone]
      · have hnone : t.stmt_instance_set_after = none :=
          walkItems_preserves
            (fun u => u.stmt_instance_set_after = none) items initWalkState t
            (fun item hi u u' hs hu => by
              show u'.stmt_instance_set_after = none
              have hu' : u.stmt_instance_set_after = none := hu
              rw [(stepItem_capture_spec hs).2.2.2 (h item hi)]
              exact hu')
            hw rfl
        cases hbt : t.stmt_instance_set_before <;> simp [hnone, hbt]

/-- Witness for C5: `zz` never appears in Scenario A, so the `(sb, zz)`
query aborts. -/
theorem missing_statement_fatal_witness :
    (∀ item ∈ itemsA,
       get_insn_id_from_linearization_item item ≠ some "zz") ∧
    buildPair itemsA "sb" "zz" [] = none :=
  ⟨by decide,
   missing_statement_fatal itemsA "sb" "zz" [] (Or.inr (by decide))⟩

/-- Once the walk state has captured both statements, appending further
items to the walked list does not change the walk's result (the `break`
fires). -/
theorem walkItems_append_of_done {loops_to_ignore : List String}
    {before_insn_id after_insn_id : String} :
    ∀ (P S : List LinItem) (s t : WalkState),
      isDone s = false →
      walkItems loops_to_ignore before_insn_id after_insn_id P s = some t →
      isDone t = true →
      walkItems loops_to_ignore before_insn_id after_insn_id (P ++ S) s
        = some t := by
  intro P
  induction P with
  | nil =>
      intro S s t hs hw ht
      simp only [walkItems, Option.some.injEq] at hw
      rw [← hw] at ht
      rw [hs] at ht
      cases ht
  | cons item rest ih =>
      intro S s t hs hw ht
      cases hstep : stepItem loops_to_ignore before_insn_id after_insn_id
          item s with
      | none => simp [walkItems, hstep] at hw
      | some s' =>
          cases hd : isDone s' with
          | true =>
              simp only [walkItems, hstep, hd, if_true] at hw
              injection hw with hw
              subst hw
              simp [List.cons_append, walkItems, hstep, hd]
          | false =>
              simp only [walkItems, hstep, hd, Bool.false_eq_true,
                if_false] at hw
              have := ih S s' t hd hw ht
              simp [List.cons_append, walkItems, hstep, hd, this]

/-- C6: if a prefix `P` of the linearization already captures both
target statements, the builder's result on `P ++ S` equals its result on
`P` for any suffix `S`: items after the capturing point never influence
the outcome. -/
theorem suffix_never_influences_result (loops_to_ignore : List String)
    (before_insn_id after_insn_id : String) (P S : List LinItem)
    (t : WalkState)
    (hw : walkItems loops_to_ignore before_insn_id after_insn_id P
            initWalkState = some t)
    (ht : isDone t = true) :
    buildPair (P ++ S) before_insn_id after_insn_id loops_to_ignore
      = buildPair P before_insn_id after_insn_id loops_to_ignore := by
  unfold buildPair
  rw [walkItems_append_of_done P S initWalkState t rfl hw ht, hw]

/-- Witness for C6 at Scenario A: the prefix through `Run sc` captures
both statements and the remaining five items do not change the result. -/
theorem suffix_never_influences_result_witness :
    walkItems [] "sb" "sc" itemsAP initWalkState = some walkStateA7 ∧
    isDone walkStateA7 = true ∧
    buildPair (itemsAP ++ itemsAS) "sb" "sc" []
      = buildPair itemsAP "sb" "sc" [] :=
  ⟨by decide, by decide,
   suffix_never_influences_result [] "sb" "sc" itemsAP itemsAS walkStateA7
     (by decide) (by decide)⟩

/-- Membership characterization of the union of disjuncts. -/
theorem create_lex_order_map_iff_exists (n_dims : Nat) (A B : List Int) :
    create_lex_order_map n_dims A B ↔
      ∃ k, k < n_dims ∧ lexDisjAt k A B := by
  simp [create_lex_order_map, create_lex_order_map_disjuncts]

/-- The single disjunct at a successor index on two nonempty lists. -/
theorem lexDisjAt_succ (k : Nat) (a b : Int) (as bs : List Int) :
    lexDisjAt (k + 1) (a :: as) (b :: bs) ↔ a = b ∧ lexDisjAt k as bs := by
  simp only [lexDisjAt, List.take_succ_cons, List.cons.injEq, List.get?]
  tauto

/-- On equal-length points, the spec-modelled union-of-disjuncts
relation agrees with the structural strict lexicographic order. -/
theorem create_lex_order_map_eq_strict (n_dims : Nat) :
    ∀ A B : List Int, A.length = n_dims → B.length = n_dims →
      (create_lex_order_map n_dims A B ↔ lexStrictLt A B) := by
  induction n_dims with
  | zero =>
      intro A B hA hB
      rw [List.length_eq_zero] at hA hB
      subst hA; subst hB
      rw [create_lex_order_map_iff_exists]
      simp [lexStrictLt]
  | succ n ih =>
      intro A B hA hB
      cases A with
      | nil => simp at hA
      | cons a as =>
          cases B with
          | nil => simp at hB
          | cons b bs =>
              simp only [List.length_cons, Nat.succ.injEq] at hA hB
              rw [create_lex_order_map_iff_exists]
              constructor
              · rintro ⟨k, hk, hdisj⟩
                cases k with
                | zero =>
                    obtain ⟨-, x, y, hx, hy, hxy⟩ := hdisj
                    cases hx; cases hy
                    exact Or.inl hxy
                | succ k' =>
                    rw [lexDisjAt_succ] at hdisj
                    refine Or.inr ⟨hdisj.1, ?_⟩
                    rw [← ih as bs hA hB, create_lex_order_map_iff_exists]
                    exact ⟨k', by omega, hdisj.2⟩
              · rintro (hlt | ⟨heq, hrest⟩)
                · exact ⟨0, by omega, rfl, a, b, rfl, rfl, hlt⟩
                · rw [← ih as bs hA hB, create_lex_order_map_iff_exists]
                    at hrest
                  obtain ⟨k', hk', hdisj⟩ := hrest
                  exact ⟨k' + 1, by omega,
                    (lexDisjAt_succ k' a b as bs).mpr ⟨heq, hdisj⟩⟩

/-- C4: the strict lexicographic relation for arity `n` relates `A` to
`B` iff some prefix length `k < n` has `A`, `B` agreeing exactly on
coordinates `[0, k)` with `A` strictly smaller at `k`; it is the union
of exactly `n` such disjuncts; and for `n = 1` it is plain integer
less-than on the single coordinate. -/
theorem lex_order_map_characterization :
    (∀ (n_dims : Nat) (A B : List Int),
       create_lex_order_map n_dims A B ↔
         ∃ k, k < n_dims ∧ A.take k = B.take k ∧
           ∃ x y, A.get? k = some x ∧ B.get? k = some y ∧ x < y) ∧
    (∀ n_dims : Nat,
       (create_lex_order_map_disjuncts n_dims).length = n_dims) ∧
    (∀ x y : Int, create_lex_order_map 1 [x] [y] ↔ x < y) := by
  refine ⟨?_, ?_, ?_⟩
  · intro n_dims A B
    rw [create_lex_order_map_iff_exists]
    simp only [lexDisjAt]
  · intro n_dims
    simp [create_lex_order_map_disjuncts]
  · intro x y
    rw [create_lex_order_map_eq_strict 1 [x] [y] rfl rfl]
    simp [lexStrictLt]

/-- C1: for the Scenario A linearization with empty ignore-set, the
sequential statement-instance ordering for the pair `(sb, sc)` —
the composition of the builder's two instance-to-lex-point relations
with the strict lexicographic order — equals, within the domain bounds
of both sides, the set
`{(i',j') -> (i,j) : i > i'} ∪ {(i',j') -> (i,j) : i = i' ∧ j >= j'}`. -/
theorem scenarioA_sequential_ordering_sb_sc
    (pi pj iv' jv' iv jv : Int) :
    ∃ sb sa,
      buildPair itemsA "sb" "sc" [] = some (sb, sa) ∧
      (sioPairRelation sb sa (domIJ pi pj) (domIJ pi pj)
          (envIJ iv' jv') (envIJ iv jv) ↔
        ((0 ≤ iv' ∧ iv' < pi ∧ 0 ≤ jv' ∧ jv' < pj) ∧
         (0 ≤ iv ∧ iv < pi ∧ 0 ≤ jv ∧ jv < pj) ∧
         (iv > iv' ∨ (iv = iv' ∧ jv ≥ jv')))) := by
  refine ⟨sbA, scA, by decide, ?_⟩
  have hB : instToLexPoint sbA (envIJ iv' jv') = [0, iv', 0, jv', 0] := by
    simp [instToLexPoint, sbA, evalLexEntry, envIJ]
  have hA : instToLexPoint scA (envIJ iv jv) = [0, iv, 0, jv, 1] := by
    simp [instToLexPoint, scA, evalLexEntry, envIJ]
  unfold sioPairRelation
  rw [hB, hA, show max_lex_dims sbA scA = 5 from rfl,
    create_lex_order_map_eq_strict 5 [0, iv', 0, jv', 0]
      [0, iv, 0, jv, 1] rfl rfl]
  simp only [domIJ, envIJ, lexStrictLt]
  norm_num
  constructor
  · rintro ⟨h1, h2, h3⟩
    refine ⟨h1, h2, ?_⟩
    omega
  · rintro ⟨h1, h2, h3⟩
    refine ⟨h1, h2, ?_⟩
    omega

/-- Similarity is reflexive. -/
theorem are_insns_similar_refl (k : KernelInsnInfo) (x : String) :
    are_insns_similar k x x = true := by
  simp [are_insns_similar]

/-- Similarity is symmetric. -/
theorem are_insns_similar_symm {k : KernelInsnInfo} {a b : String}
    (h : are_insns_similar k a b = true) :
    are_insns_similar k b a = true := by
  simp only [are_insns_similar, Bool.and_eq_true, decide_eq_true_eq] at h ⊢
  exact ⟨h.1.symm, h.2.symm⟩

/-- Similarity is transitive. -/
theorem are_insns_similar_trans {k : KernelInsnInfo} {a b c : String}
    (h1 : are_insns_similar k a b = true)
    (h2 : are_insns_similar k b c = true) :
    are_insns_similar k a c = true := by
  simp only [are_insns_similar, Bool.and_eq_true, decide_eq_true_eq] at h1 h2 ⊢
  exact ⟨h1.1.trans h2.1, h1.2.trans h2.2⟩

/-- Invariant of the homogenizer loop: flattening the result recovers
the already-emitted blocks, the current run, and the unprocessed items,
and every produced block is pairwise similar (provided the accumulator
blocks and the current run are). -/
theorem homogenizeBlocks_spec (k : KernelInsnInfo) :
    ∀ (rest : List RunInstruction) (blocks : List (List RunInstruction))
      (current : List RunInstruction),
      (∀ b ∈ blocks, ∀ r1 ∈ b, ∀ r2 ∈ b,
        are_insns_similar k r1.insn_id r2.insn_id = true) →
      (∀ r1 ∈ current, ∀ r2 ∈ current,
        are_insns_similar k r1.insn_id r2.insn_id = true) →
      (homogenizeBlocks k rest blocks current).flatten
        = blocks.flatten ++ current ++ rest ∧
      ∀ b ∈ homogenizeBlocks k rest blocks current, ∀ r1 ∈ b, ∀ r2 ∈ b,
        are_insns_similar k r1.insn_id r2.insn_id = true := by
  intro rest
  induction rest with
  | nil =>
      intro blocks current hblocks hcur
      constructor
      · simp [homogenizeBlocks]
      · intro b hb
        simp only [homogenizeBlocks, List.mem_append, List.mem_singleton]
          at hb
        rcases hb with hb | hb
        · exact hblocks b hb
        · subst hb; exact hcur
  | cons run_insn rest ih =>
      intro blocks current hblocks hcur
      cases hlast : current.getLast? with
      | none =>
          have hcur0 : current = [] := List.getLast?_eq_none_iff.mp hlast
          subst hcur0
          have hr : ∀ r1 ∈ [run_insn], ∀ r2 ∈ [run_insn],
              are_insns_similar k r1.insn_id r2.insn_id = true := by
            intro r1 h1 r2 h2
            simp only [List.mem_singleton] at h1 h2
            rw [h1, h2]
            exact are_insns_similar_refl k _
          obtain ⟨hj, hs⟩ := ih blocks [run_insn] hblocks hr
          refine ⟨?_, ?_⟩
          · simp only [homogenizeBlocks, hlast, hj]
            simp
          · simpa only [homogenizeBlocks, hlast] using hs
      | some lastInsn =>
          have hmem : lastInsn ∈ current := by
            obtain ⟨hne, hx⟩ :=
              List.mem_getLast?_eq_getLast (Option.mem_def.mpr hlast)
            rw [hx]
            exact List.getLast_mem hne
          by_cases hsim :
              are_insns_similar k lastInsn.insn_id run_insn.insn_id = true
          · have hext : ∀ r1 ∈ current ++ [run_insn],
                ∀ r2 ∈ current ++ [run_insn],
                are_insns_similar k r1.insn_id r2.insn_id = true := by
              intro r1 h1 r2 h2
              simp only [List.mem_append, List.mem_singleton] at h1 h2
              rcases h1 with h1 | h1 <;> rcases h2 with h2 | h2
              · exact hcur r1 h1 r2 h2
              · rw [h2]
                exact are_insns_similar_trans (hcur r1 h1 lastInsn hmem) hsim
              · rw [h1]
                exact are_insns_similar_trans
                  (are_insns_similar_symm hsim)
                  (hcur lastInsn hmem r2 h2)
              · rw [h1, h2]
                exact are_insns_similar_refl k _
            obtain ⟨hj, hs⟩ := ih blocks (current ++ [run_insn]) hblocks hext
            refine ⟨?_, ?_⟩
            · simp only [homogenizeBlocks, hlast, hsim, if_true, hj]
              simp
            · simpa only [homogenizeBlocks, hlast, hsim, if_true] using hs
          · have hblocks' : ∀ b ∈ blocks ++ [current], ∀ r1 ∈ b, ∀ r2 ∈ b,
                are_insns_similar k r1.insn_id r2.insn_id = true := by
              intro b hb
              simp only [List.mem_append, List.mem_singleton] at hb
              rcases hb with hb | hb
              · exact hblocks b hb
              · subst hb; exact hcur
            have hr : ∀ r1 ∈ [run_insn], ∀ r2 ∈ [run_insn],
                are_insns_similar k r1.insn_id r2.insn_id = true := by
              intro r1 h1 r2 h2
              simp only [List.mem_singleton] at h1 h2
              rw [h1, h2]
              exact are_insns_similar_refl k _
            obtain ⟨hj, hs⟩ :=
              ih (blocks ++ [current]) [run_insn] hblocks' hr
            refine ⟨?_, ?_⟩
            · rw [show homogenizeBlocks k (run_insn :: rest) blocks current
                  = homogenizeBlocks k rest (blocks ++ [current]) [run_insn]
                  by simp [homogenizeBlocks, hlast, hsim]]
              rw [hj]
              simp
            · rw [show homogenizeBlocks k (run_insn :: rest) blocks current
                  = homogenizeBlocks k rest (blocks ++ [current]) [run_insn]
                  by simp [homogenizeBlocks, hlast, hsim]]
              exact hs

/-- C10: `map_instruction_block` splits an instruction block into blocks
whose concatenation, in order, is exactly the original children list (no
instruction added, dropped or reordered), and within each produced block
any two instructions have equal `within_inames` and equal `predicates`
sets. -/
theorem homogenize_instruction_block_spec (k : KernelInsnInfo)
    (children : List RunInstruction) :
    (map_instruction_block k children).flatten = children ∧
    ∀ b ∈ map_instruction_block k children, ∀ r1 ∈ b, ∀ r2 ∈ b,
      k.within_inames r1.insn_id = k.within_inames r2.insn_id ∧
      k.predicates r1.insn_id = k.predicates r2.insn_id := by
  obtain ⟨hj, hs⟩ := homogenizeBlocks_spec k children [] []
    (by intro b hb; simp at hb) (by intro r1 h1; simp at h1)
  refine ⟨by simpa [map_instruction_block] using hj, ?_⟩
  intro b hb r1 h1 r2 h2
  have := hs b hb r1 h1 r2 h2
  simpa only [are_insns_similar, Bool.and_eq_true, decide_eq_true_eq]
    using this

/-- `tailEntries` distributes over append. -/
theorem tailEntries_append (r1 r2 : List (String × Int)) :
    tailEntries (r1 ++ r2) = tailEntries r1 ++ tailEntries r2 := by
  induction r1 with
  | nil => simp [tailEntries]
  | cons p r1 ih =>
      obtain ⟨s, c⟩ := p
      simp [tailEntries, ih]

/-- A well-formed tuple over `rest ++ [(s, c)]` ends in the pair
`[sym s, int c]`. -/
theorem interleaveTuple_concat (c0 : Int) (rest : List (String × Int))
    (s : String) (c : Int) :
    interleaveTuple c0 (rest ++ [(s, c)])
      = interleaveTuple c0 rest ++ [.sym s, .int c] := by
  simp [interleaveTuple, tailEntries_append, tailEntries]

/-- Popping from a list that ends in `x` removes exactly `x`. -/
theorem popLast_concat (l : List α) (x : α) : popLast (l ++ [x]) = some l := by
  cases l with
  | nil => rfl
  | cons a l' =>
      show popLast (a :: (l' ++ [x])) = some (a :: l')
      simp only [popLast]
      rw [← List.cons_append, List.dropLast_concat]

/-- Bumping the last entry of a well-formed tuple succeeds and keeps it
well-formed over the same loop symbols. -/
theorem bumpLast_interleave :
    ∀ (rest : List (String × Int)) (c0 : Int), 0 ≤ c0 →
      (∀ p ∈ rest, 0 ≤ p.2) →
      ∃ (c0' : Int) (rest' : List (String × Int)),
        bumpLast (interleaveTuple c0 rest)
          = some (interleaveTuple c0' rest') ∧
        rest'.map Prod.fst = rest.map Prod.fst ∧ 0 ≤ c0' ∧
        ∀ p ∈ rest', 0 ≤ p.2 := by
  intro rest
  induction rest with
  | nil =>
      intro c0 hc0 _
      exact ⟨c0 + 1, [], rfl, rfl, by omega, by simp⟩
  | cons p rest ih =>
      obtain ⟨s, c⟩ := p
      intro c0 hc0 hrest
      obtain ⟨c0', rest', hb, hmap, hc0', hrest'⟩ :=
        ih c (hrest (s, c) (by simp)) (fun q hq => hrest q (by simp [hq]))
      refine ⟨c0, (s, c0') :: rest', ?_, by simp [hmap], hc0, ?_⟩
      · show bumpLast (.int c0 :: .sym s :: interleaveTuple c rest) = _
        rw [show bumpLast (.int c0 :: .sym s :: interleaveTuple c rest)
              = (bumpLast (.sym s :: interleaveTuple c rest)).map
                  (.int c0 :: ·) from rfl]
        rw [show bumpLast (.sym s :: interleaveTuple c rest)
              = (bumpLast (interleaveTuple c rest)).map (.sym s :: ·)
            from rfl]
        rw [hb]
        rfl
      · intro q hq
        rcases List.mem_cons.mp hq with hq | hq
        · rw [hq]; exact hc0'
        · exact hrest' q hq

/-- `popLast` on a nonempty list drops exactly the last element. -/
theorem popLast_eq_dropLast {l : List α} (h : l ≠ []) :
    popLast l = some l.dropLast := by
  cases l with
  | nil => exact absurd rfl h
  | cons a l' => rfl

/-- `setLast` keeps the length of a nonempty list. -/
theorem setLast_length {l : List α} (b : α) (h : l ≠ []) :
    (setLast b l).length = l.length := by
  have : 0 < l.length := List.length_pos.mpr h
  simp [setLast, List.length_dropLast]
  omega

/-- One step of the walk preserves the tuple shape over the open-loop
stack (transformed by `openStackStep`) and the frame-flag length law. -/
theorem stepItem_shape {loops_to_ignore : List String}
    {before_insn_id after_insn_id : String} {item : LinItem}
    {s s' : WalkState} {stack stack' : List String}
    (hstep : stepItem loops_to_ignore before_insn_id after_insn_id item s
              = some s')
    (hos : openStackStep loops_to_ignore stack item = some stack')
    (hshape : ShapedTuple stack s.next_insn_lex_tuple)
    (hflags : s.stmt_added_since_prev_block_at_tier.length
               = stack.length + 1) :
    ShapedTuple stack' s'.next_insn_lex_tuple ∧
    s'.stmt_added_since_prev_block_at_tier.length = stack'.length + 1 := by
  obtain ⟨c0, rest, htup, hmap, hc0, hrest⟩ := hshape
  cases item with
  | enterLoop iname =>
      simp only [stepItem, openStackStep] at hstep hos
      by_cases hig : iname ∈ loops_to_ignore
      · rw [if_pos hig] at hstep hos
        injection hstep with h1
        injection hos with h2
        subst h1; subst h2
        exact ⟨⟨c0, rest, htup, hmap, hc0, hrest⟩, hflags⟩
      · rw [if_neg hig] at hstep hos
        injection hos with h2
        subst h2
        have hfne : s.stmt_added_since_prev_block_at_tier ≠ [] := by
          intro h
          rw [h] at hflags
          simp at hflags
        obtain ⟨f, hf⟩ : ∃ f,
            s.stmt_added_since_prev_block_at_tier.getLast? = some f := by
          cases hgl : s.stmt_added_since_prev_block_at_tier.getLast? with
          | none => exact absurd (List.getLast?_eq_none_iff.mp hgl) hfne
          | some f => exact ⟨f, rfl⟩
        simp only [hf] at hstep
        cases f with
        | true =>
            rw [if_pos rfl] at hstep
            obtain ⟨c0', rest', hb, hmap', hc0', hrest'⟩ :=
              bumpLast_interleave rest c0 hc0 hrest
            rw [htup] at hstep
            simp only [hb] at hstep
            injection hstep with h1
            subst h1
            constructor
            · refine ⟨c0', rest' ++ [(iname, 0)], ?_, ?_, hc0', ?_⟩
              · show interleaveTuple c0' rest' ++ [.sym iname, .int 0] = _
                rw [interleaveTuple_concat]
              · simp [hmap', hmap]
              · intro p hp
                rcases List.mem_append.mp hp with hp | hp
                · exact hrest' p hp
                · simp only [List.mem_singleton] at hp
                  rw [hp]
            · show (setLast false s.stmt_added_since_prev_block_at_tier
                  ++ [false]).length = (stack ++ [iname]).length + 1
              rw [List.length_append, setLast_length false hfne]
              simp [hflags]
        | false =>
            rw [if_neg Bool.false_ne_true] at hstep
            injection hstep with h1
            subst h1
            constructor
            · refine ⟨c0, rest ++ [(iname, 0)], ?_, ?_, hc0, ?_⟩
              · show s.next_insn_lex_tuple ++ [.sym iname, .int 0] = _
                rw [htup, interleaveTuple_concat]
              · simp [hmap]
              · intro p hp
                rcases List.mem_append.mp hp with hp | hp
                · exact hrest p hp
                · simp only [List.mem_singleton] at hp
                  rw [hp]
            · show (s.stmt_added_since_prev_block_at_tier
                  ++ [false]).length = (stack ++ [iname]).length + 1
              simp [hflags]
  | leaveLoop iname =>
      simp only [stepItem, openStackStep] at hstep hos
      by_cases hig : iname ∈ loops_to_ignore
      · rw [if_pos hig] at hstep hos
        injection hstep with h1
        injection hos with h2
        subst h1; subst h2
        exact ⟨⟨c0, rest, htup, hmap, hc0, hrest⟩, hflags⟩
      · rw [if_neg hig] at hstep hos
        obtain ⟨j, hgl⟩ : ∃ j, stack.getLast? = some j := by
          cases hgl : stack.getLast? with
          | none => rw [hgl] at hos; cases hos
          | some j => exact ⟨j, rfl⟩
        simp only [hgl] at hos
        by_cases hj : j = iname
        · rw [if_pos hj] at hos
          injection hos with h2
          subst h2
          have hsne : stack ≠ [] := by
            intro h
            rw [h] at hgl
            cases hgl
          have hrne : rest ≠ [] := by
            intro h
            rw [h] at hmap
            exact hsne hmap.symm
          rcases List.eq_nil_or_concat rest with h | ⟨rest₀, pN, hsplit⟩
          · exact absurd h hrne
          obtain ⟨sN, cN⟩ := pN
          subst hsplit
          simp only [List.concat_eq_append] at htup hmap hrest hrne
          have htup2 : s.next_insn_lex_tuple
              = (interleaveTuple c0 rest₀ ++ [.sym sN]) ++ [.int cN] := by
            rw [htup, interleaveTuple_concat]
            simp
          have hp1 : popLast s.next_insn_lex_tuple
              = some (interleaveTuple c0 rest₀ ++ [.sym sN]) := by
            rw [htup2, popLast_concat]
          have hp2 : popLast (interleaveTuple c0 rest₀ ++ [.sym sN])
              = some (interleaveTuple c0 rest₀) := popLast_concat _ _
          have hfne : s.stmt_added_since_prev_block_at_tier ≠ [] := by
            intro h
            rw [h] at hflags
            simp at hflags
          have hp3 : popLast s.stmt_added_since_prev_block_at_tier
              = some s.stmt_added_since_prev_block_at_tier.dropLast :=
            popLast_eq_dropLast hfne
          have hlen1 : s.stmt_added_since_prev_block_at_tier.dropLast.length
              = stack.length := by
            rw [List.length_dropLast, hflags]
            omega
          have hdne : s.stmt_added_since_prev_block_at_tier.dropLast ≠ [] := by
            intro h
            rw [h] at hlen1
            exact hsne (List.length_eq_zero.mp hlen1.symm)
          obtain ⟨b, hb⟩ : ∃ b,
              s.stmt_added_since_prev_block_at_tier.dropLast.getLast?
                = some b := by
            cases hgb : s.stmt_added_since_prev_block_at_tier.dropLast.getLast?
              with
            | none => exact absurd (List.getLast?_eq_none_iff.mp hgb) hdne
            | some b => exact ⟨b, rfl⟩
          simp only [hp1, hp2, hp3, hb] at hstep
          have hstackdrop : stack.dropLast = rest₀.map Prod.fst := by
            rw [← hmap]
            simp
          have hrest₀ : ∀ p ∈ rest₀, 0 ≤ p.2 := fun p hp =>
            hrest p (List.mem_append.mpr (Or.inl hp))
          cases b with
          | true =>
              rw [if_pos rfl] at hstep
              obtain ⟨c0', rest', hbump, hmap', hc0', hrest'⟩ :=
                bumpLast_interleave rest₀ c0 hc0 hrest₀
              simp only [hbump] at hstep
              injection hstep with h1
              subst h1
              constructor
              · exact ⟨c0', rest', rfl, by rw [hmap', hstackdrop], hc0',
                  hrest'⟩
              · show (setLast false
                    s.stmt_added_since_prev_block_at_tier.dropLast).length
                  = stack.dropLast.length + 1
                rw [setLast_length false hdne, hlen1,
                  List.length_dropLast]
                have : 0 < stack.length := List.length_pos.mpr hsne
                omega
          | false =>
              rw [if_neg Bool.false_ne_true] at hstep
              injection hstep with h1
              subst h1
              constructor
              · exact ⟨c0, rest₀, rfl, by rw [hstackdrop], hc0, hrest₀⟩
              · show s.stmt_added_since_prev_block_at_tier.dropLast.length
                  = stack.dropLast.length + 1
                rw [hlen1, List.length_dropLast]
                have : 0 < stack.length := List.length_pos.mpr hsne
                omega
        · rw [if_neg hj] at hos
          cases hos
  | runInsn sid =>
      simp only [stepItem, openStackStep,
        get_insn_id_from_linearization_item] at hstep hos
      injection hos with h2
      subst h2
      by_cases hadd : sid = before_insn_id ∨ sid = after_insn_id
      · rw [if_pos hadd] at hstep
        obtain ⟨c0', rest', hbump, hmap', hc0', hrest'⟩ :=
          bumpLast_interleave rest c0 hc0 hrest
        rw [htup] at hstep
        simp only [hbump] at hstep
        injection hstep with h1
        subst h1
        refine ⟨⟨c0', rest', rfl, by rw [hmap', hmap], hc0', hrest'⟩, ?_⟩
        show (List.replicate s.stmt_added_since_prev_block_at_tier.length
            true).length = stack.length + 1
        rw [List.length_replicate, hflags]
      · rw [if_neg hadd] at hstep
        injection hstep with h1
        subst h1
        exact ⟨⟨c0, rest, htup, hmap, hc0, hrest⟩, hflags⟩
  | barrier comment sync_kind mem_kind oid =>
      cases oid with
      | none =>
          simp only [stepItem, openStackStep,
            get_insn_id_from_linearization_item] at hstep hos
          injection hos with h2
          subst h2
          injection hstep with h1
          subst h1
          exact ⟨⟨c0, rest, htup, hmap, hc0, hrest⟩, hflags⟩
      | some lp =>
          simp only [stepItem, openStackStep,
            get_insn_id_from_linearization_item] at hstep hos
          injection hos with h2
          subst h2
          by_cases hadd : lp = before_insn_id ∨ lp = after_insn_id
          · rw [if_pos hadd] at hstep
            obtain ⟨c0', rest', hbump, hmap', hc0', hrest'⟩ :=
              bumpLast_interleave rest c0 hc0 hrest
            rw [htup] at hstep
            simp only [hbump] at hstep
            injection hstep with h1
            subst h1
            refine ⟨⟨c0', rest', rfl, by rw [hmap', hmap], hc0', hrest'⟩, ?_⟩
            show (List.replicate s.stmt_added_since_prev_block_at_tier.length
                true).length = stack.length + 1
            rw [List.length_replicate, hflags]
          · rw [if_neg hadd] at hstep
            injection hstep with h1
            subst h1
            exact ⟨⟨c0, rest, htup, hmap, hc0, hrest⟩, hflags⟩

/-- Length of the tail of a well-formed tuple. -/
theorem tailEntries_length (rest : List (String × Int)) :
    (tailEntries rest).length = 2 * rest.length := by
  induction rest with
  | nil => rfl
  | cons p rest ih =>
      obtain ⟨s, c⟩ := p
      simp [tailEntries, ih]
      omega

/-- A walk that has not yet broken preserves the shape and flag-length
invariants along the open-loop stack of the walked prefix. -/
theorem walkItems_shape {loops_to_ignore : List String}
    {before_insn_id after_insn_id : String} :
    ∀ (items : List LinItem) (s t : WalkState) (stack stack' : List String),
      walkItems loops_to_ignore before_insn_id after_insn_id items s
        = some t →
      isDone t = false →
      openStack loops_to_ignore items stack = some stack' →
      ShapedTuple stack s.next_insn_lex_tuple →
      s.stmt_added_since_prev_block_at_tier.length = stack.length + 1 →
      ShapedTuple stack' t.next_insn_lex_tuple ∧
      t.stmt_added_since_prev_block_at_tier.length = stack'.length + 1 := by
  intro items
  induction items with
  | nil =>
      intro s t stack stack' hw hnd hos hsh hfl
      simp only [walkItems, Option.some.injEq] at hw
      simp only [openStack, Option.some.injEq] at hos
      rw [← hw, ← hos]
      exact ⟨hsh, hfl⟩
  | cons item rest ih =>
      intro s t stack stack' hw hnd hos hsh hfl
      cases hstep0 : openStackStep loops_to_ignore stack item with
      | none => simp [openStack, hstep0] at hos
      | some stack₁ =>
          simp only [openStack, hstep0] at hos
          cases hs : stepItem loops_to_ignore before_insn_id after_insn_id
              item s with
          | none => simp [walkItems, hs] at hw
          | some s₁ =>
              obtain ⟨hsh₁, hfl₁⟩ := stepItem_shape hs hstep0 hsh hfl
              cases hd : isDone s₁ with
              | true =>
                  simp only [walkItems, hs, hd, if_true] at hw
                  injection hw with hw
                  rw [← hw] at hnd
                  rw [hd] at hnd
                  cases hnd
              | false =>
                  simp only [walkItems, hs, hd, Bool.false_eq_true,
                    if_false] at hw
                  exact ih s₁ t stack₁ stack' hw hnd hos hsh₁ hfl₁

/-- A defined open-loop stack on `P ++ Q` yields one on the prefix
`P`. -/
theorem openStack_append_isSome {loops_to_ignore : List String} :
    ∀ (P Q : List LinItem) (st : List String),
      (openStack loops_to_ignore (P ++ Q) st).isSome = true →
      ∃ mid, openStack loops_to_ignore P st = some mid := by
  intro P
  induction P with
  | nil => intro Q st _; exact ⟨st, rfl⟩
  | cons item rest ih =>
      intro Q st h
      cases hstep0 : openStackStep loops_to_ignore st item with
      | none => simp [openStack, hstep0] at h
      | some st₁ =>
          simp only [List.cons_append, openStack, hstep0] at h ⊢
          exact ih Q st₁ h

/-- C8: on a well-nested linearization, at any not-yet-done point of the
walk the lex tuple is an alternation — an outermost nonnegative integer
block counter followed by one `(loop symbol, nonnegative counter)` pair
per enclosing non-ignored loop, outermost first (odd length `2d + 1`) —
the flag list has length `(len(next_insn_lex_tuple) + 1) / 2`, and any
snapshot captured at the next item equals the current (shaped) tuple. -/
theorem walk_tuple_alternation_invariant
    (loops_to_ignore : List String) (before_insn_id after_insn_id : String)
    (P S : List LinItem) (x : LinItem) (t t' : WalkState)
    (hwn : WellNested (P ++ x :: S) loops_to_ignore)
    (hw : walkItems loops_to_ignore before_insn_id after_insn_id P
            initWalkState = some t)
    (hnd : isDone t = false)
    (hstep : stepItem loops_to_ignore before_insn_id after_insn_id x t
              = some t') :
    ∃ stack, openStack loops_to_ignore P [] = some stack ∧
      ShapedTuple stack t.next_insn_lex_tuple ∧
      2 * t.stmt_added_since_prev_block_at_tier.length
        = t.next_insn_lex_tuple.length + 1 ∧
      (t'.stmt_instance_set_before ≠ t.stmt_instance_set_before →
        t'.stmt_instance_set_before
          = some ⟨before_insn_id, t.next_insn_lex_tuple⟩) ∧
      (t'.stmt_instance_set_after ≠ t.stmt_instance_set_after →
        t'.stmt_instance_set_after
          = some ⟨after_insn_id, t.next_insn_lex_tuple⟩) := by
  obtain ⟨stack, hstack⟩ := openStack_append_isSome P (x :: S) [] hwn
  obtain ⟨hsh, hfl⟩ := walkItems_shape P initWalkState t [] stack hw hnd
    hstack ⟨0, [], rfl, rfl, le_refl 0, by simp⟩ rfl
  refine ⟨stack, hstack, hsh, ?_, ?_, ?_⟩
  · obtain ⟨c0, rest, htup, hmap, -, -⟩ := hsh
    have hlen : t.next_insn_lex_tuple.length = 2 * rest.length + 1 := by
      rw [htup]
      simp [interleaveTuple, tailEntries_length]
    have hrs : rest.length = stack.length := by
      rw [← hmap]
      simp
    omega
  · intro hne
    exact ((stepItem_capture_spec hstep).1).resolve_left hne
  · intro hne
    exact ((stepItem_capture_spec hstep).2.1).resolve_left hne

/-- Witness for C8 at Scenario A: the walk state just before `Run sb`
is shaped over the open stack `[i, j]`, and the capture of `sb`
snapshots exactly that tuple. -/
theorem walk_tuple_alternation_invariant_witness :
    WellNested (itemsA5 ++ .runInsn "sb" :: itemsAtail) [] ∧
    walkItems [] "sb" "sc" itemsA5 initWalkState = some walkStateA5 ∧
    isDone walkStateA5 = false ∧
    stepItem [] "sb" "sc" (.runInsn "sb") walkStateA5 = some walkStateA6 ∧
    (∃ stack, openStack [] itemsA5 [] = some stack ∧
      ShapedTuple stack walkStateA5.next_insn_lex_tuple ∧
      2 * walkStateA5.stmt_added_since_prev_block_at_tier.length
        = walkStateA5.next_insn_lex_tuple.length + 1 ∧
      (walkStateA6.stmt_instance_set_before
          ≠ walkStateA5.stmt_instance_set_before →
        walkStateA6.stmt_instance_set_before
          = some ⟨"sb", walkStateA5.next_insn_lex_tuple⟩) ∧
      (walkStateA6.stmt_instance_set_after
          ≠ walkStateA5.stmt_instance_set_after →
        walkStateA6.stmt_instance_set_after
          = some ⟨"sc", walkStateA5.next_insn_lex_tuple⟩)) :=
  ⟨by unfold WellNested; decide, by decide, by decide, by decide,
   walk_tuple_alternation_invariant [] "sb" "sc" itemsA5 itemsAtail
     (.runInsn "sb") walkStateA5 walkStateA6
     (by unfold WellNested; decide) (by decide) (by decide) (by decide)⟩
